import Mathlib

/-!
Verification development for the sg-medishield-semantic-search repository.

The repository couples a React frontend (PDF viewer with coordinate-based
highlighting, search UI, search API client) with a Python PDF pipeline
(extract, enrich, build nodes, embed, index) whose behaviour is documented in
the project specification.  The frontend TypeScript sources are embedded
directly; the pipeline components whose sources are not in the repository
snapshot are modelled from the specification, as marked on each definition.

Numbers (JavaScript `number` values used for coordinates, scores and zoom
scale) are modelled as rationals; integer-valued quantities (page numbers,
counts) are modelled as `Int`.  Serialized JSON strings are modelled by their
parse outcome.
-/

set_option maxHeartbeats 1000000

namespace MediShield

/-! ## Frontend data model (frontend/src/types.ts) -/

/-- `Coordinates` from frontend/src/types.ts: `points` is a sequence of
`(x, y)` pairs (TypeScript `number[][]`, whose rows are coordinate pairs by
the data contract), together with the coordinate-space identifier and the
layout dimensions the points were measured against. -/
structure Coordinates where
  points : List (ℚ × ℚ)
  system : String
  layout_width : ℚ
  layout_height : ℚ
deriving DecidableEq, Repr

/-- The serialized `coordinates : string` field of a search result, modelled
by the outcome of `JSON.parse` on it: `absent` when the field is missing or
empty (falsy in the guard of `getHighlightStyle`), `invalid` when parsing
throws, `valid c` when it parses to a `Coordinates` value. -/
inductive CoordJson where
  | absent
  | invalid
  | valid (c : Coordinates)
deriving DecidableEq, Repr

/-- `SearchResult` from frontend/src/types.ts. -/
structure SearchResult where
  id : String
  score : ℚ
  text : String
  page : Int
  node_type : String
  coordinates : CoordJson
deriving DecidableEq, Repr

/-- `SearchResponse` from frontend/src/types.ts. -/
structure SearchResponse where
  results : List SearchResult
deriving DecidableEq, Repr

/-! ## PDF viewer (frontend/src/components/PDFViewer.tsx) -/

/-- The rendered page dimensions captured by `onPageLoadSuccess`. -/
structure PageDimensions where
  width : ℚ
  height : ℚ
deriving DecidableEq, Repr

/-- The geometric fields of the CSS style object built by
`getHighlightStyle`; the constant styling fields (colors, border radius,
pointer events) are omitted. -/
structure HighlightStyle where
  left : ℚ
  top : ℚ
  width : ℚ
  height : ℚ
deriving DecidableEq, Repr

/-- `Math.min` folded over a nonempty collection, seeded with its head. -/
def foldMin (a : ℚ) (l : List ℚ) : ℚ := l.foldl min a

/-- `Math.max` folded over a nonempty collection, seeded with its head. -/
def foldMax (a : ℚ) (l : List ℚ) : ℚ := l.foldl max a

/-- `Math.min(...points.map(p => p[0]))` for a nonempty point list. -/
def minXOf : List (ℚ × ℚ) → ℚ
  | [] => 0
  | p :: ps => foldMin p.1 (ps.map Prod.fst)

/-- `Math.max(...points.map(p => p[0]))` for a nonempty point list. -/
def maxXOf : List (ℚ × ℚ) → ℚ
  | [] => 0
  | p :: ps => foldMax p.1 (ps.map Prod.fst)

/-- `Math.min(...points.map(p => p[1]))` for a nonempty point list. -/
def minYOf : List (ℚ × ℚ) → ℚ
  | [] => 0
  | p :: ps => foldMin p.2 (ps.map Prod.snd)

/-- `Math.max(...points.map(p => p[1]))` for a nonempty point list. -/
def maxYOf : List (ℚ × ℚ) → ℚ
  | [] => 0
  | p :: ps => foldMax p.2 (ps.map Prod.snd)

/-- `getHighlightStyle` from PDFViewer.tsx: returns `none` when there is no
selected result, the coordinates field is absent/empty, the page dimensions
are not yet known, or `JSON.parse` throws (the `catch` branch); otherwise it
rescales the parsed points by `renderedDimension / layoutDimension` on each
axis and returns the bounding box of the rescaled points.  An empty `points`
array would produce an unusable infinite box in JavaScript and is modelled as
`none`. -/
def getHighlightStyle (selectedResult : Option SearchResult)
    (pageDimensions : Option PageDimensions) : Option HighlightStyle :=
  match selectedResult, pageDimensions with
  | some r, some d =>
    match r.coordinates with
    | CoordJson.valid c =>
      match c.points with
      | [] => none
      | _ :: _ =>
        let scaleX := d.width / c.layout_width
        let scaleY := d.height / c.layout_height
        let minX := minXOf c.points * scaleX
        let minY := minYOf c.points * scaleY
        let maxX := maxXOf c.points * scaleX
        let maxY := maxYOf c.points * scaleY
        some { left := minX, top := minY, width := maxX - minX, height := maxY - minY }
    | _ => none
  | _, _ => none

/-- The guarded overlay from PDFViewer.tsx:
`selectedResult?.page === pageNumber ? getHighlightStyle() : null`. -/
def highlightStyle (selectedResult : Option SearchResult) (pageNumber : Int)
    (pageDimensions : Option PageDimensions) : Option HighlightStyle :=
  if selectedResult.map SearchResult.page = some pageNumber then
    getHighlightStyle selectedResult pageDimensions
  else none

/-- Previous-page button from PDFViewer.tsx: disabled when `pageNumber <= 1`,
otherwise `setPageNumber(p => Math.max(1, p - 1))`. -/
def prevPageClick (_numPages pageNumber : Int) : Int :=
  if pageNumber ≤ 1 then pageNumber else max 1 (pageNumber - 1)

/-- Next-page button from PDFViewer.tsx: disabled when
`pageNumber >= numPages`, otherwise `setPageNumber(p => Math.min(numPages, p + 1))`. -/
def nextPageClick (numPages pageNumber : Int) : Int :=
  if numPages ≤ pageNumber then pageNumber else min numPages (pageNumber + 1)

/-- Zoom-out button from PDFViewer.tsx: `setScale(s => Math.max(0.5, s - 0.1))`. -/
def zoomOutClick (scale : ℚ) : ℚ := max (1 / 2) (scale - 1 / 10)

/-- Zoom-in button from PDFViewer.tsx: `setScale(s => Math.min(2, s + 0.1))`. -/
def zoomInClick (scale : ℚ) : ℚ := min 2 (scale + 1 / 10)

/-! ## Search API client (frontend/src/api.ts) and search handler
(frontend/src/App.tsx) -/

/-- Outcome of the `fetch` call to the `/search` endpoint: the promise
rejects (network error), the response is non-ok, or the response is ok and
carries a `SearchResponse` body. -/
inductive BackendOutcome where
  | networkError
  | httpError
  | ok (resp : SearchResponse)
deriving DecidableEq, Repr

/-- The JSON request body `{ query, top_k: topK }` sent by `searchDocuments`. -/
structure SearchRequest where
  query : String
  top_k : Int
deriving DecidableEq, Repr

/-- The default value of the `topK` parameter of `searchDocuments`. -/
def defaultTopK : Int := 5

/-- `searchDocuments` from frontend/src/api.ts: issues one POST of
`{ query, top_k }` to `/search` and either returns the parsed body, or
throws — the rejected fetch propagates, and a non-ok response throws
`new Error('Search failed')`.  The returned pair is (request issued,
result-or-thrown-error). -/
def searchDocuments (query : String) (topK : Int) (outcome : BackendOutcome) :
    SearchRequest × Except String SearchResponse :=
  (⟨query, topK⟩,
    match outcome with
    | BackendOutcome.networkError => Except.error "NetworkError"
    | BackendOutcome.httpError => Except.error "Search failed"
    | BackendOutcome.ok resp => Except.ok resp)

/-- The component state of `App` (frontend/src/App.tsx) touched by
`handleSearch`. -/
structure AppState where
  query : String
  results : List SearchResult
  selectedResult : Option SearchResult
  isLoading : Bool
  error : Option String
  hasSearched : Bool
deriving DecidableEq, Repr

/-- The whitespace characters recognised by the JavaScript
`String.prototype.trim` that occur in query text. -/
def isJsWhitespace (c : Char) : Bool :=
  c = ' ' || c = '\n' || c = '\t' || c = '\r'

/-- JavaScript `String.prototype.trim`: drop whitespace from both ends. -/
def jsTrim (s : String) : String :=
  ⟨((s.data.dropWhile isJsWhitespace).reverse.dropWhile isJsWhitespace).reverse⟩

/-- The alert text set by the `catch` branch of `handleSearch`. -/
def searchFailedMessage : String :=
  "Failed to search. Please check your connection and try again."

/-- `handleSearch` from frontend/src/App.tsx: returns early on a
blank-after-trim query; otherwise sets loading/clears error, calls
`searchDocuments` with the default `top_k`, and on success stores the results
and selects the first one (`response.results[0] || null`), on failure sets
the single search-failed error and empties the results; `finally` clears the
loading flag.  The second component lists the network requests issued. -/
def handleSearch (st : AppState) (searchQuery : String) (outcome : BackendOutcome) :
    AppState × List SearchRequest :=
  if jsTrim searchQuery = "" then (st, [])
  else
    let st1 : AppState :=
      { st with query := searchQuery, isLoading := true, error := none, hasSearched := true }
    let call := searchDocuments searchQuery defaultTopK outcome
    let st2 : AppState :=
      match call.2 with
      | Except.ok resp =>
        { st1 with results := resp.results, selectedResult := resp.results.head? }
      | Except.error _ =>
        { st1 with error := some searchFailedMessage, results := [] }
    ({ st2 with isLoading := false }, [call.1])

/-- Index-time vector-store metadata.  Modelled from the spec: the indexer
source is not in the repository snapshot; per the vector store upsert schema
the metadata is `{text, page, node_type, serialized coordinates}`. -/
structure IndexMetadata where
  text : String
  page : Int
  node_type : String
  coordinates : CoordJson
deriving DecidableEq, Repr

/-- The metadata portion of a search result. -/
def SearchResult.metadata (r : SearchResult) : IndexMetadata :=
  ⟨r.text, r.page, r.node_type, r.coordinates⟩

/-- Reassemble a search result from its id, its score and index-time
metadata. -/
def resultOfParts (id : String) (score : ℚ) (m : IndexMetadata) : SearchResult :=
  ⟨id, score, m.text, m.page, m.node_type, m.coordinates⟩

/-! ## Theorems about the viewer -/

/-- Claim C2: for a selected search result whose serialized coordinates parse
to a `Coordinates` value, the viewer rescales every point by
`renderedDimension / layoutDimension` on each axis: the overlay box spans
exactly `[min_x * scaleX, max_x * scaleX] × [min_y * scaleY, max_y * scaleY]`
with `scaleX = renderedWidth / layout_width` and
`scaleY = renderedHeight / layout_height`. -/
theorem c2_highlight_rescaled_by_layout_ratio
    (r : SearchResult) (c : Coordinates) (d : PageDimensions) (pn : Int)
    (hc : r.coordinates = CoordJson.valid c) (hne : c.points ≠ [])
    (hpage : r.page = pn) :
    ∃ st : HighlightStyle,
      highlightStyle (some r) pn (some d) = some st ∧
      st.left = minXOf c.points * (d.width / c.layout_width) ∧
      st.left + st.width = maxXOf c.points * (d.width / c.layout_width) ∧
      st.top = minYOf c.points * (d.height / c.layout_height) ∧
      st.top + st.height = maxYOf c.points * (d.height / c.layout_height) := by
  subst hpage
  obtain ⟨p, ps, hps⟩ : ∃ p ps, c.points = p :: ps := by
    cases h : c.points with
    | nil => exact absurd h hne
    | cons p ps => exact ⟨p, ps, rfl⟩
  refine ⟨⟨minXOf c.points * (d.width / c.layout_width),
      minYOf c.points * (d.height / c.layout_height),
      maxXOf c.points * (d.width / c.layout_width) -
        minXOf c.points * (d.width / c.layout_width),
      maxYOf c.points * (d.height / c.layout_height) -
        minYOf c.points * (d.height / c.layout_height)⟩,
    ?_, rfl, by ring, rfl, by ring⟩
  unfold highlightStyle getHighlightStyle
  simp [hc, hps]

/-- Claim C2 witness: concrete evaluation of the highlight overlay. -/
theorem c2_highlight_rescaled_by_layout_ratio_witness :
    ∃ st : HighlightStyle,
      highlightStyle
        (some ⟨"n1", 9 / 10, "t", 2, "paragraph",
          CoordJson.valid ⟨[(10, 20), (110, 70)], "pdf", 600, 800⟩⟩)
        2 (some ⟨300, 400⟩) = some st ∧
      st.left = minXOf [((10 : ℚ), (20 : ℚ)), (110, 70)] * (300 / 600) ∧
      st.left + st.width = maxXOf [((10 : ℚ), (20 : ℚ)), (110, 70)] * (300 / 600) ∧
      st.top = minYOf [((10 : ℚ), (20 : ℚ)), (110, 70)] * (400 / 800) ∧
      st.top + st.height = maxYOf [((10 : ℚ), (20 : ℚ)), (110, 70)] * (400 / 800) :=
  c2_highlight_rescaled_by_layout_ratio
    ⟨"n1", 9 / 10, "t", 2, "paragraph",
      CoordJson.valid ⟨[(10, 20), (110, 70)], "pdf", 600, 800⟩⟩
    ⟨[(10, 20), (110, 70)], "pdf", 600, 800⟩ ⟨300, 400⟩ 2
    rfl (by decide) rfl

/-- Claim C8: a selected result whose coordinates field is absent or fails to
parse yields no highlight style, and a selected result whose page differs
from the displayed page yields no overlay; the (total) highlight computation
never raises. -/
theorem c8_malformed_coordinates_yield_no_highlight
    (r : SearchResult) (pn : Int) (dims : Option PageDimensions) :
    ((r.coordinates = CoordJson.absent ∨ r.coordinates = CoordJson.invalid) →
      getHighlightStyle (some r) dims = none) ∧
    (r.page ≠ pn → highlightStyle (some r) pn dims = none) := by
  constructor
  · intro h
    unfold getHighlightStyle
    rcases h with h | h <;> cases dims <;> simp [h]
  · intro h
    unfold highlightStyle
    simp [h]

/-- Claim C8 witness: concrete malformed-coordinates and wrong-page cases. -/
theorem c8_malformed_coordinates_yield_no_highlight_witness :
    getHighlightStyle
      (some ⟨"n2", 1 / 2, "t", 3, "sentence", CoordJson.invalid⟩)
      (some ⟨300, 400⟩) = none ∧
    highlightStyle
      (some ⟨"n3", 1 / 2, "t", 3, "sentence",
        CoordJson.valid ⟨[(0, 0), (1, 1)], "pdf", 10, 10⟩⟩)
      4 (some ⟨300, 400⟩) = none := by
  constructor
  · exact (c8_malformed_coordinates_yield_no_highlight
      ⟨"n2", 1 / 2, "t", 3, "sentence", CoordJson.invalid⟩ 3
      (some ⟨300, 400⟩)).1 (Or.inr rfl)
  · exact (c8_malformed_coordinates_yield_no_highlight
      ⟨"n3", 1 / 2, "t", 3, "sentence",
        CoordJson.valid ⟨[(0, 0), (1, 1)], "pdf", 10, 10⟩⟩ 4
      (some ⟨300, 400⟩)).2 (by decide)

/-- Claim C10: the page-navigation clicks keep the page number at least 1 and
(once the document is loaded and the page is in range) at most `numPages`,
and the zoom clicks keep the scale within `[0.5, 2]`. -/
theorem c10_navigation_and_zoom_preserve_bounds
    (numPages p : Int) (s : ℚ) (hp : 1 ≤ p) :
    (1 ≤ prevPageClick numPages p ∧ 1 ≤ nextPageClick numPages p) ∧
    (p ≤ numPages →
      prevPageClick numPages p ≤ numPages ∧ nextPageClick numPages p ≤ numPages) ∧
    (1 / 2 ≤ s → s ≤ 2 →
      1 / 2 ≤ zoomOutClick s ∧ zoomOutClick s ≤ 2 ∧
      1 / 2 ≤ zoomInClick s ∧ zoomInClick s ≤ 2) := by
  refine ⟨⟨?_, ?_⟩, fun hpn => ⟨?_, ?_⟩, fun h1 h2 => ⟨?_, ?_, ?_, ?_⟩⟩
  · unfold prevPageClick; split <;> omega
  · unfold nextPageClick; split <;> omega
  · unfold prevPageClick; split <;> omega
  · unfold nextPageClick; split <;> omega
  · exact le_max_left _ _
  · unfold zoomOutClick
    rw [max_le_iff]
    constructor <;> linarith
  · unfold zoomInClick
    rw [le_min_iff]
    constructor <;> linarith
  · exact min_le_left _ _

/-- Claim C10 witness: concrete clicks at the boundary. -/
theorem c10_navigation_and_zoom_preserve_bounds_witness :
    (1 ≤ prevPageClick 3 1 ∧ 1 ≤ nextPageClick 3 1) ∧
    ((1 : Int) ≤ 3 →
      prevPageClick 3 1 ≤ 3 ∧ nextPageClick 3 1 ≤ 3) ∧
    (1 / 2 ≤ (1 / 2 : ℚ) → (1 / 2 : ℚ) ≤ 2 →
      1 / 2 ≤ zoomOutClick (1 / 2) ∧ zoomOutClick (1 / 2) ≤ 2 ∧
      1 / 2 ≤ zoomInClick (1 / 2) ∧ zoomInClick (1 / 2) ≤ 2) :=
  c10_navigation_and_zoom_preserve_bounds 3 1 (1 / 2) (by decide)

/-! ## Theorems about the search flow -/

/-- Claim C9: on a query that is empty or whitespace-only, `handleSearch`
returns before touching any state and issues no network request. -/
theorem c9_blank_query_no_request_no_state_change
    (st : AppState) (q : String) (outcome : BackendOutcome)
    (hws : ∀ c ∈ q.data, isJsWhitespace c = true) :
    handleSearch st q outcome = (st, []) := by
  have htrim : jsTrim q = "" := by
    unfold jsTrim
    have hd : q.data.dropWhile isJsWhitespace = [] :=
      List.dropWhile_eq_nil_iff.mpr hws
    rw [hd]
    rfl
  unfold handleSearch
  rw [if_pos htrim]

/-- Claim C9 witness: a whitespace-only query leaves the state untouched. -/
theorem c9_blank_query_no_request_no_state_change_witness :
    handleSearch ⟨"old", [], none, false, none, false⟩ "  " BackendOutcome.networkError =
      (⟨"old", [], none, false, none, false⟩, []) :=
  c9_blank_query_no_request_no_state_change
    ⟨"old", [], none, false, none, false⟩ "  " BackendOutcome.networkError
    (by decide)

/-- Claim C3: when the backend fails (network error or non-ok response) on a
non-blank query, `handleSearch` surfaces exactly the single search-failed
error, leaves an empty result list (never a partial one), and clears the
loading flag. -/
theorem c3_backend_failure_single_error_empty_results
    (st : AppState) (q : String) (outcome : BackendOutcome)
    (hq : jsTrim q ≠ "")
    (hfail : outcome = BackendOutcome.networkError ∨ outcome = BackendOutcome.httpError) :
    (handleSearch st q outcome).1.error = some searchFailedMessage ∧
    (handleSearch st q outcome).1.results = [] ∧
    (handleSearch st q outcome).1.isLoading = false := by
  unfold handleSearch searchDocuments
  rcases hfail with h | h <;> subst h <;> simp [hq]

/-- Claim C3 witness: a concrete failed search. -/
theorem c3_backend_failure_single_error_empty_results_witness :
    (handleSearch ⟨"", [], none, false, none, false⟩ "claims" BackendOutcome.httpError).1.error =
      some searchFailedMessage ∧
    (handleSearch ⟨"", [], none, false, none, false⟩ "claims" BackendOutcome.httpError).1.results = [] ∧
    (handleSearch ⟨"", [], none, false, none, false⟩ "claims" BackendOutcome.httpError).1.isLoading = false :=
  c3_backend_failure_single_error_empty_results
    ⟨"", [], none, false, none, false⟩ "claims" BackendOutcome.httpError
    (by decide) (Or.inr rfl)

/-- Claim C4: `searchDocuments` sends exactly `{query, top_k}` with the
default `top_k = 5`; a search result consists of its `id`, its `score` and
precisely the index-time metadata schema `{text, page, node_type,
coordinates}` (the decomposition round-trips in both directions); and any
result with parseable, nonempty coordinates lets the viewer compute a
highlight overlay. -/
theorem c4_request_shape_and_result_schema :
    (∀ (q : String) (outcome : BackendOutcome),
      (searchDocuments q defaultTopK outcome).1 = ⟨q, 5⟩) ∧
    (∀ r : SearchResult, resultOfParts r.id r.score r.metadata = r) ∧
    (∀ (i : String) (sc : ℚ) (m : IndexMetadata),
      (resultOfParts i sc m).metadata = m ∧
      (resultOfParts i sc m).id = i ∧ (resultOfParts i sc m).score = sc) ∧
    (∀ (r : SearchResult) (c : Coordinates) (d : PageDimensions),
      r.coordinates = CoordJson.valid c → c.points ≠ [] →
      (getHighlightStyle (some r) (some d)).isSome = true) := by
  refine ⟨fun q outcome => rfl, fun r => rfl, fun i sc m => ⟨rfl, rfl, rfl⟩,
    fun r c d hc hne => ?_⟩
  obtain ⟨p, ps, hps⟩ : ∃ p ps, c.points = p :: ps := by
    cases h : c.points with
    | nil => exact absurd h hne
    | cons p ps => exact ⟨p, ps, rfl⟩
  unfold getHighlightStyle
  simp [hc, hps]

/-- Claim C4 witness: concrete request and concrete schema round-trip. -/
theorem c4_request_shape_and_result_schema_witness :
    (searchDocuments "deductible" defaultTopK
      (BackendOutcome.ok ⟨[]⟩)).1 = ⟨"deductible", 5⟩ ∧
    resultOfParts "n9" (3 / 4)
        (SearchResult.metadata ⟨"n9", 3 / 4, "t", 1, "section", CoordJson.absent⟩) =
      ⟨"n9", 3 / 4, "t", 1, "section", CoordJson.absent⟩ ∧
    (getHighlightStyle
      (some ⟨"n9", 3 / 4, "t", 1, "section",
        CoordJson.valid ⟨[(0, 0), (5, 5)], "pdf", 10, 10⟩⟩)
      (some ⟨20, 20⟩)).isSome = true := by
  refine ⟨c4_request_shape_and_result_schema.1 "deductible" (BackendOutcome.ok ⟨[]⟩),
    c4_request_shape_and_result_schema.2.1 ⟨"n9", 3 / 4, "t", 1, "section", CoordJson.absent⟩,
    c4_request_shape_and_result_schema.2.2.2
      ⟨"n9", 3 / 4, "t", 1, "section",
        CoordJson.valid ⟨[(0, 0), (5, 5)], "pdf", 10, 10⟩⟩
      ⟨[(0, 0), (5, 5)], "pdf", 10, 10⟩ ⟨20, 20⟩ rfl (by decide)⟩

/-! ## Pipeline node identity and indexing

Modelled from the spec: the Python pipeline sources are not in the
repository snapshot (only the pipeline README is), so the node-identity and
indexing behaviour below follows the specification text: the Node `id` is "a
pure function of (document identity, node_type, page, position-within-page)",
and the Indexer upserts `(id, vector, metadata)` entries keyed by `id`,
overwriting on re-runs rather than duplicating. -/

/-- Modelled from the spec: the Node granularities. -/
inductive NodeType where
  | table_row
  | table_full
  | section
  | paragraph
  | sentence
  | image
deriving DecidableEq, Repr

/-- Modelled from the spec: the stable deterministic Node identifier, a pure
function of (document identity, node_type, page, position-within-page),
modelled as the tuple of those four components (an injective encoding of
them). -/
structure NodeId where
  doc : String
  ty : NodeType
  page : Int
  pos : Nat
deriving DecidableEq, Repr

/-- Modelled from the spec: the Node record (text as a character list, with
optional parent reference and optional embedding vector). -/
structure PipeNode where
  id : NodeId
  node_type : NodeType
  text : List Char
  page : Int
  pos : Nat
  parent_id : Option NodeId
  embedding : Option (List ℚ)
deriving DecidableEq, Repr

/-- Modelled from the spec: a source document — its identity plus the
extracted structural units of each page, in source order. -/
structure Document where
  docId : String
  pages : List (List (List Char))
deriving DecidableEq, Repr

/-- Modelled from the spec: the nodes a builder produces for one page, one
node per structural unit at successive positions-within-page. -/
def pageNodes (docId : String) (i : Int) : Nat → List (List Char) → List PipeNode
  | _, [] => []
  | j, t :: ts =>
    ⟨⟨docId, NodeType.paragraph, i, j⟩, NodeType.paragraph, t, i, j, none, none⟩ ::
      pageNodes docId i (j + 1) ts

/-- Modelled from the spec: nodes of the pages from page number `i` on. -/
def buildPages (docId : String) : Int → List (List (List Char)) → List PipeNode
  | _, [] => []
  | i, pg :: rest => pageNodes docId i 0 pg ++ buildPages docId (i + 1) rest

/-- Modelled from the spec: a full deterministic pipeline run over a
document (pages are 1-based). -/
def runNodes (d : Document) : List PipeNode := buildPages d.docId 1 d.pages

/-- The ids present in a vector store (a keyed entry list). -/
def storeKeys {α : Type} (s : List (NodeId × α)) : List NodeId := s.map Prod.fst

/-- Modelled from the spec: vector-store upsert — overwrite the entry with
this id if present, append otherwise. -/
def upsert {α : Type} (e : NodeId × α) (s : List (NodeId × α)) :
    List (NodeId × α) :=
  if e.1 ∈ storeKeys s then s.map (fun p => if p.1 = e.1 then e else p)
  else s ++ [e]

/-- Modelled from the spec: index a batch of entries by successive upserts. -/
def indexAll {α : Type} (ns : List (NodeId × α)) (s : List (NodeId × α)) :
    List (NodeId × α) :=
  ns.foldl (fun acc e => upsert e acc) s

/-- The vector-store entry written for a node. -/
def toEntry (n : PipeNode) : NodeId × PipeNode := (n.id, n)

section StoreLemmas

variable {α : Type}

lemma storeKeys_map_replace (e : NodeId × α) (s : List (NodeId × α)) :
    storeKeys (s.map (fun p => if p.1 = e.1 then e else p)) = storeKeys s := by
  induction s with
  | nil => rfl
  | cons p s ih =>
    simp only [List.map_cons, storeKeys] at *
    by_cases h : p.1 = e.1
    · simp [h, ih]
    · simp [h, ih]

lemma mem_storeKeys_upsert {a : NodeId} {e : NodeId × α} {s : List (NodeId × α)} :
    a ∈ storeKeys (upsert e s) ↔ a ∈ storeKeys s ∨ a = e.1 := by
  unfold upsert
  split
  · rename_i hmem
    rw [storeKeys_map_replace]
    constructor
    · exact Or.inl
    · rintro (h | h)
      · exact h
      · exact h ▸ hmem
  · unfold storeKeys
    simp

lemma storeKeys_nodup_upsert {e : NodeId × α} {s : List (NodeId × α)}
    (h : (storeKeys s).Nodup) : (storeKeys (upsert e s)).Nodup := by
  unfold upsert
  split
  · rw [storeKeys_map_replace]; exact h
  · rename_i hmem
    unfold storeKeys at *
    simp only [List.map_append, List.map_cons, List.map_nil]
    rw [List.nodup_append]
    exact ⟨h, List.nodup_singleton _, by simpa using fun hx => hmem hx⟩

lemma mem_upsert_self (e : NodeId × α) (s : List (NodeId × α)) :
    e ∈ upsert e s := by
  unfold upsert
  split
  · rename_i hmem
    unfold storeKeys at hmem
    obtain ⟨p, hp, hp1⟩ := List.mem_map.mp hmem
    exact List.mem_map.mpr ⟨p, hp, by simp [hp1]⟩
  · simp

lemma mem_upsert_of_ne {x e : NodeId × α} {s : List (NodeId × α)}
    (hx : x ∈ s) (hne : x.1 ≠ e.1) : x ∈ upsert e s := by
  unfold upsert
  split
  · exact List.mem_map.mpr ⟨x, hx, by simp [hne]⟩
  · exact List.mem_append_left _ hx

lemma mem_indexAll_of_not_key {x : NodeId × α} {ns s : List (NodeId × α)}
    (hx : x ∈ s) (hkey : x.1 ∉ storeKeys ns) : x ∈ indexAll ns s := by
  induction ns generalizing s with
  | nil => exact hx
  | cons e rest ih =>
    unfold storeKeys at hkey
    simp only [List.map_cons, List.mem_cons, not_or] at hkey
    exact ih (mem_upsert_of_ne hx hkey.1) (by
      unfold storeKeys
      exact fun h => hkey.2 h)

lemma mem_indexAll_self {e : NodeId × α} {ns : List (NodeId × α)}
    (hnd : (storeKeys ns).Nodup) (he : e ∈ ns) :
    ∀ s : List (NodeId × α), e ∈ indexAll ns s := by
  induction ns with
  | nil => cases he
  | cons x rest ih =>
    intro s
    unfold storeKeys at hnd
    simp only [List.map_cons, List.nodup_cons] at hnd
    rcases List.mem_cons.mp he with h | h
    · subst h
      show e ∈ indexAll rest (upsert e s)
      exact mem_indexAll_of_not_key (mem_upsert_self e s) hnd.1
    · show e ∈ indexAll rest (upsert x s)
      exact ih hnd.2 h _

lemma eq_of_key_eq {p q : NodeId × α} {s : List (NodeId × α)}
    (hnd : (storeKeys s).Nodup) (hp : p ∈ s) (hq : q ∈ s) (h : p.1 = q.1) :
    p = q := by
  induction s with
  | nil => cases hp
  | cons x rest ih =>
    unfold storeKeys at hnd
    simp only [List.map_cons, List.nodup_cons] at hnd
    rcases List.mem_cons.mp hp with hp' | hp' <;>
      rcases List.mem_cons.mp hq with hq' | hq'
    · exact hp'.trans hq'.symm
    · exfalso
      apply hnd.1
      rw [hp'] at h
      rw [h]
      exact List.mem_map.mpr ⟨q, hq', rfl⟩
    · exfalso
      apply hnd.1
      rw [hq'] at h
      rw [← h]
      exact List.mem_map.mpr ⟨p, hp', rfl⟩
    · exact ih hnd.2 hp' hq'

lemma upsert_mem_eq {e : NodeId × α} {s : List (NodeId × α)}
    (hnd : (storeKeys s).Nodup) (he : e ∈ s) : upsert e s = s := by
  have hmem : e.1 ∈ storeKeys s := by
    unfold storeKeys
    exact List.mem_map.mpr ⟨e, he, rfl⟩
  unfold upsert
  rw [if_pos hmem]
  have hcongr : s.map (fun p => if p.1 = e.1 then e else p) = s.map id := by
    apply List.map_congr_left
    intro p hp
    by_cases h : p.1 = e.1
    · rw [if_pos h]
      exact eq_of_key_eq hnd he hp h.symm
    · rw [if_neg h]
      rfl
  rw [hcongr, List.map_id]

lemma indexAll_keys_nodup {ns s : List (NodeId × α)}
    (h : (storeKeys s).Nodup) : (storeKeys (indexAll ns s)).Nodup := by
  induction ns generalizing s with
  | nil => exact h
  | cons e rest ih => exact ih (storeKeys_nodup_upsert h)

lemma indexAll_fixed {ns t : List (NodeId × α)}
    (hnd : (storeKeys t).Nodup) (hmem : ∀ e ∈ ns, e ∈ t) :
    indexAll ns t = t := by
  induction ns with
  | nil => rfl
  | cons e rest ih =>
    unfold indexAll
    simp only [List.foldl_cons]
    rw [upsert_mem_eq hnd (hmem e (List.mem_cons_self e rest))]
    exact ih fun x hx => hmem x (List.mem_cons_of_mem e hx)

end StoreLemmas

lemma pageNodes_spec {docId : String} {i : Int} {ts : List (List Char)} :
    ∀ (j : Nat) (n : PipeNode), n ∈ pageNodes docId i j ts →
      n.id = ⟨docId, n.node_type, n.page, n.pos⟩ ∧
      n.node_type = NodeType.paragraph ∧ n.page = i ∧ j ≤ n.pos := by
  induction ts with
  | nil => intro j n hn; cases hn
  | cons t ts ih =>
    intro j n hn
    rcases List.mem_cons.mp hn with h | h
    · subst h
      exact ⟨rfl, rfl, rfl, le_refl j⟩
    · obtain ⟨h1, h2, h3, h4⟩ := ih (j + 1) n h
      exact ⟨h1, h2, h3, by omega⟩

lemma pageNodes_ids_nodup (docId : String) (i : Int) (ts : List (List Char)) :
    ∀ j : Nat, ((pageNodes docId i j ts).map PipeNode.id).Nodup := by
  induction ts with
  | nil => intro j; simp [pageNodes]
  | cons t ts ih =>
    intro j
    simp only [pageNodes, List.map_cons, List.nodup_cons]
    refine ⟨?_, ih (j + 1)⟩
    intro hmem
    obtain ⟨n, hn, hid⟩ := List.mem_map.mp hmem
    obtain ⟨h1, _, _, h4⟩ := pageNodes_spec (j + 1) n hn
    rw [h1] at hid
    simp only [NodeId.mk.injEq] at hid
    omega

lemma buildPages_spec (docId : String) (pgs : List (List (List Char))) :
    ∀ (i : Int) (n : PipeNode), n ∈ buildPages docId i pgs →
      n.id = ⟨docId, n.node_type, n.page, n.pos⟩ ∧ i ≤ n.page := by
  induction pgs with
  | nil => intro i n hn; cases hn
  | cons pg rest ih =>
    intro i n hn
    rcases List.mem_append.mp hn with h | h
    · obtain ⟨h1, _, h3, _⟩ := pageNodes_spec 0 n h
      exact ⟨h1, le_of_eq h3.symm⟩
    · obtain ⟨h1, h2⟩ := ih (i + 1) n h
      exact ⟨h1, by omega⟩

lemma buildPages_ids_nodup (docId : String) (pgs : List (List (List Char))) :
    ∀ i : Int, ((buildPages docId i pgs).map PipeNode.id).Nodup := by
  induction pgs with
  | nil => intro i; simp [buildPages]
  | cons pg rest ih =>
    intro i
    simp only [buildPages, List.map_append]
    rw [List.nodup_append]
    refine ⟨pageNodes_ids_nodup docId i pg 0, ih (i + 1), ?_⟩
    intro a ha hb
    obtain ⟨n, hn, rfl⟩ := List.mem_map.mp ha
    obtain ⟨m, hm, hid⟩ := List.mem_map.mp hb
    obtain ⟨h1, _, h3, _⟩ := pageNodes_spec 0 n hn
    obtain ⟨g1, g2⟩ := buildPages_spec docId rest (i + 1) m hm
    rw [h1, g1] at hid
    simp only [NodeId.mk.injEq] at hid
    omega

/-- Claim C1: a pipeline run is a pure function of the document, each
produced node's id is exactly the tuple of (document identity, node_type,
page, position-within-page), the produced ids contain no duplicates, and
re-indexing the same run's nodes into a duplicate-free vector store keeps it
duplicate-free and changes nothing on the second pass (upsert by id
overwrites). -/
theorem c1_stable_node_ids_and_idempotent_indexing (d : Document)
    (s : List (NodeId × PipeNode)) (hs : (storeKeys s).Nodup) :
    (∀ n ∈ runNodes d, n.id = ⟨d.docId, n.node_type, n.page, n.pos⟩) ∧
    ((runNodes d).map PipeNode.id).Nodup ∧
    (storeKeys (indexAll ((runNodes d).map toEntry) s)).Nodup ∧
    indexAll ((runNodes d).map toEntry) (indexAll ((runNodes d).map toEntry) s)
      = indexAll ((runNodes d).map toEntry) s := by
  have hkeys : storeKeys ((runNodes d).map toEntry) = (runNodes d).map PipeNode.id := by
    unfold storeKeys toEntry
    rw [List.map_map]
    rfl
  have hnd : ((runNodes d).map PipeNode.id).Nodup :=
    buildPages_ids_nodup d.docId d.pages 1
  refine ⟨fun n hn => (buildPages_spec d.docId d.pages 1 n hn).1, hnd,
    indexAll_keys_nodup hs, ?_⟩
  apply indexAll_fixed (indexAll_keys_nodup hs)
  intro e he
  exact mem_indexAll_self (by rw [hkeys]; exact hnd) he s

/-- Claim C1 witness: a concrete two-page document indexed into an empty
store. -/
theorem c1_stable_node_ids_and_idempotent_indexing_witness :
    (∀ n ∈ runNodes ⟨"medishield.pdf", [[['a']], [['b'], ['c']]]⟩,
      n.id = ⟨"medishield.pdf", n.node_type, n.page, n.pos⟩) ∧
    ((runNodes ⟨"medishield.pdf", [[['a']], [['b'], ['c']]]⟩).map PipeNode.id).Nodup ∧
    (storeKeys (indexAll
      ((runNodes ⟨"medishield.pdf", [[['a']], [['b'], ['c']]]⟩).map toEntry) [])).Nodup ∧
    indexAll ((runNodes ⟨"medishield.pdf", [[['a']], [['b'], ['c']]]⟩).map toEntry)
        (indexAll ((runNodes ⟨"medishield.pdf", [[['a']], [['b'], ['c']]]⟩).map toEntry) [])
      = indexAll ((runNodes ⟨"medishield.pdf", [[['a']], [['b'], ['c']]]⟩).map toEntry) [] :=
  c1_stable_node_ids_and_idempotent_indexing
    ⟨"medishield.pdf", [[['a']], [['b'], ['c']]]⟩ [] (by simp [storeKeys])

/-! ## Pipeline coordinates

Modelled from the spec: extractors emit RawRecords "each with valid
page-relative Coordinates" (an unparsable unit yields no record); a derived
node's coordinates are either copied unchanged from its source record or are
the bounding union of its source spans. -/

/-- The four corner points of an axis-aligned box, in polygon order. -/
def boxPoints (x0 y0 x1 y1 : ℚ) : List (ℚ × ℚ) :=
  [(x0, y0), (x1, y0), (x1, y1), (x0, y1)]

/-- Modelled from the spec: the extractor's coordinate emission for one
detected structural unit — it validates the detected box against the page
layout (positive page dimensions, box inside the page, strictly positive
extent) and yields no coordinates otherwise (the unit is skipped with a
warning). -/
def extractCoordinates (w h x0 y0 x1 y1 : ℚ) : Option Coordinates :=
  if 0 < w ∧ 0 < h ∧ 0 ≤ x0 ∧ x0 < x1 ∧ x1 ≤ w ∧ 0 ≤ y0 ∧ y0 < y1 ∧ y1 ≤ h then
    some ⟨boxPoints x0 y0 x1 y1, "pdf", w, h⟩
  else none

/-- Modelled from the spec: the bounding union of two coordinate sets on the
same page (layout dimensions are shared, so the first record's are kept). -/
def unionCoords (c1 c2 : Coordinates) : Coordinates :=
  ⟨boxPoints (min (minXOf c1.points) (minXOf c2.points))
      (min (minYOf c1.points) (minYOf c2.points))
      (max (maxXOf c1.points) (maxXOf c2.points))
      (max (maxYOf c1.points) (maxYOf c2.points)),
    c1.system, c1.layout_width, c1.layout_height⟩

/-- The coordinate invariant for page-bound nodes: positive layout
dimensions, a nonempty point sequence, and a non-degenerate bounding box. -/
def coordOk (c : Coordinates) : Prop :=
  0 < c.layout_width ∧ 0 < c.layout_height ∧ c.points ≠ [] ∧
  minXOf c.points < maxXOf c.points ∧ minYOf c.points < maxYOf c.points

instance (c : Coordinates) : Decidable (coordOk c) := by
  unfold coordOk
  infer_instance

/-- Modelled from the spec: the coordinates a page-bound node can carry —
coordinates produced by extraction (copying, as done for sentence/row nodes,
reuses the same value), or the bounding union of source spans. -/
inductive PipelineCoord : Coordinates → Prop where
  | extracted (w h x0 y0 x1 y1 : ℚ) (c : Coordinates)
      (hc : extractCoordinates w h x0 y0 x1 y1 = some c) : PipelineCoord c
  | unioned (c1 c2 : Coordinates) (h1 : PipelineCoord c1) (h2 : PipelineCoord c2) :
      PipelineCoord (unionCoords c1 c2)

lemma minXOf_boxPoints (x0 y0 x1 y1 : ℚ) :
    minXOf (boxPoints x0 y0 x1 y1) = min x0 x1 := by
  simp [minXOf, boxPoints, foldMin, min_assoc, min_comm, min_left_comm, min_self]

lemma maxXOf_boxPoints (x0 y0 x1 y1 : ℚ) :
    maxXOf (boxPoints x0 y0 x1 y1) = max x0 x1 := by
  simp [maxXOf, boxPoints, foldMax, max_assoc, max_comm, max_left_comm, max_self]

lemma minYOf_boxPoints (x0 y0 x1 y1 : ℚ) :
    minYOf (boxPoints x0 y0 x1 y1) = min y0 y1 := by
  simp [minYOf, boxPoints, foldMin, min_assoc, min_comm, min_left_comm, min_self]

lemma maxYOf_boxPoints (x0 y0 x1 y1 : ℚ) :
    maxYOf (boxPoints x0 y0 x1 y1) = max y0 y1 := by
  simp [maxYOf, boxPoints, foldMax, max_assoc, max_comm, max_left_comm, max_self]

/-- Claim C6: every coordinate value a page-bound pipeline node can carry
has strictly positive layout dimensions, a nonempty point sequence, and a
strictly non-degenerate bounding box on both axes. -/
theorem c6_page_bound_coordinates_nondegenerate (c : Coordinates)
    (h : PipelineCoord c) : coordOk c := by
  induction h with
  | extracted w h x0 y0 x1 y1 c hc =>
    unfold extractCoordinates at hc
    split at hc
    · rename_i hcond
      obtain ⟨hw, hh, _, hx, _, _, hy, _⟩ := hcond
      cases hc
      refine ⟨hw, hh, by simp [boxPoints], ?_, ?_⟩
      · rw [minXOf_boxPoints, maxXOf_boxPoints]
        calc min x0 x1 ≤ x0 := min_le_left _ _
          _ < x1 := hx
          _ ≤ max x0 x1 := le_max_right _ _
      · rw [minYOf_boxPoints, maxYOf_boxPoints]
        calc min y0 y1 ≤ y0 := min_le_left _ _
          _ < y1 := hy
          _ ≤ max y0 y1 := le_max_right _ _
    · cases hc
  | unioned c1 c2 h1 h2 ih1 ih2 =>
    obtain ⟨hw1, hh1, _, hx1, hy1⟩ := ih1
    have hxlt : min (minXOf c1.points) (minXOf c2.points) <
        max (maxXOf c1.points) (maxXOf c2.points) :=
      calc min (minXOf c1.points) (minXOf c2.points) ≤ minXOf c1.points :=
            min_le_left _ _
        _ < maxXOf c1.points := hx1
        _ ≤ max (maxXOf c1.points) (maxXOf c2.points) := le_max_left _ _
    have hylt : min (minYOf c1.points) (minYOf c2.points) <
        max (maxYOf c1.points) (maxYOf c2.points) :=
      calc min (minYOf c1.points) (minYOf c2.points) ≤ minYOf c1.points :=
            min_le_left _ _
        _ < maxYOf c1.points := hy1
        _ ≤ max (maxYOf c1.points) (maxYOf c2.points) := le_max_left _ _
    refine ⟨hw1, hh1, by simp [unionCoords, boxPoints], ?_, ?_⟩
    · show minXOf (unionCoords c1 c2).points < maxXOf (unionCoords c1 c2).points
      unfold unionCoords
      rw [minXOf_boxPoints, maxXOf_boxPoints]
      calc min (min (minXOf c1.points) (minXOf c2.points))
            (max (maxXOf c1.points) (maxXOf c2.points)) ≤
          min (minXOf c1.points) (minXOf c2.points) := min_le_left _ _
        _ < max (maxXOf c1.points) (maxXOf c2.points) := hxlt
        _ ≤ max (min (minXOf c1.points) (minXOf c2.points))
            (max (maxXOf c1.points) (maxXOf c2.points)) := le_max_right _ _
    · show minYOf (unionCoords c1 c2).points < maxYOf (unionCoords c1 c2).points
      unfold unionCoords
      rw [minYOf_boxPoints, maxYOf_boxPoints]
      calc min (min (minYOf c1.points) (minYOf c2.points))
            (max (maxYOf c1.points) (maxYOf c2.points)) ≤
          min (minYOf c1.points) (minYOf c2.points) := min_le_left _ _
        _ < max (maxYOf c1.points) (maxYOf c2.points) := hylt
        _ ≤ max (min (minYOf c1.points) (minYOf c2.points))
            (max (maxYOf c1.points) (maxYOf c2.points)) := le_max_right _ _

/-- Claim C6 witness: a concrete extracted coordinate value. -/
theorem c6_page_bound_coordinates_nondegenerate_witness :
    coordOk ⟨boxPoints 10 20 110 70, "pdf", 600, 800⟩ :=
  c6_page_bound_coordinates_nondegenerate _
    (PipelineCoord.extracted 600 800 10 20 110 70 _ (by decide))

/-! ## Embedder

Modelled from the spec: the Embedder attaches an embedding vector to each
node of a batch; a node whose text the backend rejects is dropped from the
batch output and reported, the remaining nodes still succeed. The backend is
modelled as a function from node text to an optional vector (`none` = the
item is rejected). -/

/-- Modelled from the spec: embed a batch — each accepted node gets its
vector attached, each rejected node is dropped and its id reported as a
failure; everything stays in batch order. -/
def embedBatch (backend : List Char → Option (List ℚ)) :
    List PipeNode → List PipeNode × List NodeId
  | [] => ([], [])
  | n :: ns =>
    let rest := embedBatch backend ns
    match backend n.text with
    | some v => ({ n with embedding := some v } :: rest.1, rest.2)
    | none => (rest.1, n.id :: rest.2)

lemma embedBatch_snd (backend : List Char → Option (List ℚ))
    (ns : List PipeNode) :
    (embedBatch backend ns).2 =
      (ns.filter (fun n => (backend n.text).isNone)).map PipeNode.id := by
  induction ns with
  | nil => rfl
  | cons n ns ih =>
    unfold embedBatch
    cases h : backend n.text <;> simp [h, ih]

lemma embedBatch_fst (backend : List Char → Option (List ℚ))
    (ns : List PipeNode) :
    (embedBatch backend ns).1 =
      (ns.filter (fun n => (backend n.text).isSome)).map
        (fun n => { n with embedding := backend n.text }) := by
  induction ns with
  | nil => rfl
  | cons n ns ih =>
    unfold embedBatch
    cases h : backend n.text <;> simp [h, ih]

lemma embedBatch_length (backend : List Char → Option (List ℚ))
    (ns : List PipeNode) :
    (embedBatch backend ns).1.length +
      (ns.filter (fun n => (backend n.text).isNone)).length = ns.length := by
  induction ns with
  | nil => rfl
  | cons n ns ih =>
    unfold embedBatch
    cases h : backend n.text <;> simp [h] <;> omega

/-- Claim C7: on a batch of N nodes of which exactly one is rejected by the
backend, the Embedder returns exactly N−1 embedded nodes, reports exactly one
failure, and the surviving nodes are exactly the accepted ones in order,
unchanged apart from the attached embedding. -/
theorem c7_embedder_isolates_single_failure
    (backend : List Char → Option (List ℚ)) (ns : List PipeNode)
    (h : (ns.filter (fun n => (backend n.text).isNone)).length = 1) :
    (embedBatch backend ns).1.length = ns.length - 1 ∧
    (embedBatch backend ns).2.length = 1 ∧
    (embedBatch backend ns).1 =
      (ns.filter (fun n => (backend n.text).isSome)).map
        (fun n => { n with embedding := backend n.text }) := by
  have hlen := embedBatch_length backend ns
  refine ⟨by omega, ?_, embedBatch_fst backend ns⟩
  rw [embedBatch_snd, List.length_map, h]

/-- Claim C7 witness: a concrete three-node batch whose middle node has empty
text, against a backend that rejects exactly the empty text. -/
theorem c7_embedder_isolates_single_failure_witness :
    (embedBatch (fun t => if t = [] then none else some [1])
      [⟨⟨"d", NodeType.sentence, 1, 0⟩, NodeType.sentence, ['a'], 1, 0, none, none⟩,
       ⟨⟨"d", NodeType.sentence, 1, 1⟩, NodeType.sentence, [], 1, 1, none, none⟩,
       ⟨⟨"d", NodeType.sentence, 1, 2⟩, NodeType.sentence, ['b'], 1, 2, none, none⟩]).1.length =
      3 - 1 ∧
    (embedBatch (fun t => if t = [] then none else some [1])
      [⟨⟨"d", NodeType.sentence, 1, 0⟩, NodeType.sentence, ['a'], 1, 0, none, none⟩,
       ⟨⟨"d", NodeType.sentence, 1, 1⟩, NodeType.sentence, [], 1, 1, none, none⟩,
       ⟨⟨"d", NodeType.sentence, 1, 2⟩, NodeType.sentence, ['b'], 1, 2, none, none⟩]).2.length = 1 ∧
    (embedBatch (fun t => if t = [] then none else some [1])
      [⟨⟨"d", NodeType.sentence, 1, 0⟩, NodeType.sentence, ['a'], 1, 0, none, none⟩,
       ⟨⟨"d", NodeType.sentence, 1, 1⟩, NodeType.sentence, [], 1, 1, none, none⟩,
       ⟨⟨"d", NodeType.sentence, 1, 2⟩, NodeType.sentence, ['b'], 1, 2, none, none⟩]).1 =
      (([⟨⟨"d", NodeType.sentence, 1, 0⟩, NodeType.sentence, ['a'], 1, 0, none, none⟩,
         ⟨⟨"d", NodeType.sentence, 1, 1⟩, NodeType.sentence, [], 1, 1, none, none⟩,
         ⟨⟨"d", NodeType.sentence, 1, 2⟩, NodeType.sentence, ['b'], 1, 2, none, none⟩] :
            List PipeNode).filter
        (fun n => ((fun t => if t = [] then none else some [(1 : ℚ)]) n.text).isSome)).map
        (fun n => { n with embedding := (fun t => if t = [] then none else some [(1 : ℚ)]) n.text }) :=
  c7_embedder_isolates_single_failure (fun t => if t = [] then none else some [1])
    [⟨⟨"d", NodeType.sentence, 1, 0⟩, NodeType.sentence, ['a'], 1, 0, none, none⟩,
     ⟨⟨"d", NodeType.sentence, 1, 1⟩, NodeType.sentence, [], 1, 1, none, none⟩,
     ⟨⟨"d", NodeType.sentence, 1, 2⟩, NodeType.sentence, ['b'], 1, 2, none, none⟩]
    (by decide)

/-! ## Whitespace normalization and hierarchical text splitting

Modelled from the spec: the TextNodeBuilder sources are not in the
repository snapshot.  Per the spec, the builder splits page text
hierarchically (sections → paragraphs → sentences), each node's text being
the whitespace-normalized content of its span, and the containment invariant
compares the whitespace-normalized concatenation of the children's text with
the parent's text.  Whitespace normalization collapses every maximal
whitespace run to a single space and trims the ends; concatenation of node
texts joins them with a single space. -/

/-- Whitespace characters for normalization purposes. -/
def isWsChar (c : Char) : Bool :=
  c = ' ' || c = '\n' || c = '\t' || c = '\r'

/-- Tokenizer worker: split a character list into maximal whitespace-free
runs; `acc` holds the current run, reversed. -/
def tokensGo : List Char → List Char → List (List Char)
  | [], [] => []
  | [], acc => [acc.reverse]
  | c :: cs, acc =>
    if isWsChar c then
      match acc with
      | [] => tokensGo cs []
      | _ => acc.reverse :: tokensGo cs []
    else tokensGo cs (c :: acc)

/-- The whitespace-separated tokens of a character list. -/
def tokens (l : List Char) : List (List Char) := tokensGo l []

/-- Join chunks with a single space between consecutive chunks. -/
def joinSp : List (List Char) → List Char
  | [] => []
  | [t] => t
  | t :: t' :: ts => t ++ ' ' :: joinSp (t' :: ts)

/-- Whitespace normalization: single spaces between tokens, no leading or
trailing whitespace. -/
def normWs (l : List Char) : List Char := joinSp (tokens l)

/-- Split a list into chunks, a chunk boundary falling after every element
satisfying `p` (which stays with the preceding chunk); `acc` holds the
current chunk, reversed. -/
def chunkBy {α : Type} (p : α → Bool) : List α → List α → List (List α)
  | [], [] => []
  | [], acc => [acc.reverse]
  | x :: xs, acc =>
    if p x then ((x :: acc).reverse) :: chunkBy p xs []
    else chunkBy p xs (x :: acc)

lemma chunkBy_nil_nil {α : Type} (p : α → Bool) : chunkBy p [] [] = [] := rfl

lemma chunkBy_nil_cons {α : Type} (p : α → Bool) (a : α) (as : List α) :
    chunkBy p [] (a :: as) = [(a :: as).reverse] := rfl

lemma chunkBy_cons_pos {α : Type} {p : α → Bool} {x : α} (h : p x = true)
    (xs acc : List α) :
    chunkBy p (x :: xs) acc = ((x :: acc).reverse) :: chunkBy p xs [] := by
  simp [chunkBy, h]

lemma chunkBy_cons_neg {α : Type} {p : α → Bool} {x : α} (h : p x = false)
    (xs acc : List α) :
    chunkBy p (x :: xs) acc = chunkBy p xs (x :: acc) := by
  simp [chunkBy, h]

lemma flatten_chunkBy {α : Type} (p : α → Bool) :
    ∀ (l acc : List α), (chunkBy p l acc).flatten = acc.reverse ++ l := by
  intro l
  induction l with
  | nil =>
    intro acc
    cases acc with
    | nil => rfl
    | cons a as => simp [chunkBy_nil_cons]
  | cons x xs ih =>
    intro acc
    by_cases h : p x
    · rw [chunkBy_cons_pos h, List.flatten_cons, ih []]
      simp
    · rw [chunkBy_cons_neg (by simpa using h), ih (x :: acc)]
      simp

lemma tokensGo_nil_nil : tokensGo [] [] = [] := rfl

lemma tokensGo_nil_cons (a : Char) (as : List Char) :
    tokensGo [] (a :: as) = [(a :: as).reverse] := rfl

lemma tokensGo_cons_not_ws {c : Char} (hc : isWsChar c = false)
    (cs acc : List Char) : tokensGo (c :: cs) acc = tokensGo cs (c :: acc) := by
  simp [tokensGo, hc]

lemma tokensGo_cons_ws_nil {c : Char} (hc : isWsChar c = true) (cs : List Char) :
    tokensGo (c :: cs) [] = tokensGo cs [] := by
  simp [tokensGo, hc]

lemma tokensGo_cons_ws_cons {c : Char} (hc : isWsChar c = true)
    (cs : List Char) (a : Char) (as : List Char) :
    tokensGo (c :: cs) (a :: as) = (a :: as).reverse :: tokensGo cs [] := by
  simp [tokensGo, hc]

lemma tokensGo_all_not_ws :
    ∀ (t : List Char), (∀ c ∈ t, isWsChar c = false) →
      ∀ (rest acc : List Char),
        tokensGo (t ++ rest) acc = tokensGo rest (t.reverse ++ acc) := by
  intro t
  induction t with
  | nil => intro _ rest acc; rw [List.nil_append, List.reverse_nil, List.nil_append]
  | cons c t ih =>
    intro h rest acc
    have hc : isWsChar c = false := h c (List.mem_cons_self c t)
    have ht : ∀ x ∈ t, isWsChar x = false := fun x hx => h x (List.mem_cons_of_mem c hx)
    rw [List.cons_append, tokensGo_cons_not_ws hc, ih ht rest (c :: acc)]
    congr 1
    simp

lemma tokensGo_trailing_ws {w : Char} (hw : isWsChar w = true) :
    ∀ (a acc : List Char), tokensGo (a ++ [w]) acc = tokensGo a acc := by
  intro a
  induction a with
  | nil =>
    intro acc
    cases acc with
    | nil => rw [List.nil_append, tokensGo_cons_ws_nil hw]
    | cons x xs => rw [List.nil_append, tokensGo_cons_ws_cons hw, tokensGo_nil_nil,
        tokensGo_nil_cons]
  | cons c a ih =>
    intro acc
    by_cases hc : isWsChar c
    · cases acc with
      | nil =>
        rw [List.cons_append, tokensGo_cons_ws_nil hc, tokensGo_cons_ws_nil hc, ih]
      | cons x xs =>
        rw [List.cons_append, tokensGo_cons_ws_cons hc, tokensGo_cons_ws_cons hc, ih]
    · have hc' : isWsChar c = false := by simpa using hc
      rw [List.cons_append, tokensGo_cons_not_ws hc', tokensGo_cons_not_ws hc', ih]

lemma tokensGo_sep {w : Char} (hw : isWsChar w = true) :
    ∀ (a b acc : List Char),
      tokensGo (a ++ w :: b) acc = tokensGo (a ++ [w]) acc ++ tokensGo b [] := by
  intro a
  induction a with
  | nil =>
    intro b acc
    cases acc with
    | nil =>
      rw [List.nil_append, List.nil_append, tokensGo_cons_ws_nil hw,
        tokensGo_cons_ws_nil hw, tokensGo_nil_nil, List.nil_append]
    | cons x xs =>
      rw [List.nil_append, List.nil_append, tokensGo_cons_ws_cons hw,
        tokensGo_cons_ws_cons hw, tokensGo_nil_nil]
      rfl
  | cons c a ih =>
    intro b acc
    by_cases hc : isWsChar c
    · cases acc with
      | nil =>
        rw [List.cons_append, tokensGo_cons_ws_nil hc, List.cons_append,
          tokensGo_cons_ws_nil hc, ih]
      | cons x xs =>
        rw [List.cons_append, tokensGo_cons_ws_cons hc, List.cons_append,
          tokensGo_cons_ws_cons hc, ih]
        rfl
    · have hc' : isWsChar c = false := by simpa using hc
      rw [List.cons_append, tokensGo_cons_not_ws hc', List.cons_append,
        tokensGo_cons_not_ws hc', ih]

/-- A single whitespace character splits tokenization. -/
lemma tokens_append_ws {w : Char} (hw : isWsChar w = true) (a b : List Char) :
    tokens (a ++ w :: b) = tokens a ++ tokens b := by
  unfold tokens
  rw [tokensGo_sep hw, tokensGo_trailing_ws hw]

lemma tokensGo_wf :
    ∀ (l acc : List Char), (∀ c ∈ acc, isWsChar c = false) →
      ∀ t ∈ tokensGo l acc, t ≠ [] ∧ ∀ c ∈ t, isWsChar c = false := by
  intro l
  induction l with
  | nil =>
    intro acc hacc t ht
    cases acc with
    | nil => cases ht
    | cons a as =>
      simp only [tokensGo, List.mem_singleton] at ht
      subst ht
      refine ⟨by simp, fun c hc => hacc c (List.mem_reverse.mp hc)⟩
  | cons c cs ih =>
    intro acc hacc t ht
    by_cases hc : isWsChar c
    · cases acc with
      | nil =>
        simp only [tokensGo, hc, if_true] at ht
        exact ih [] (by simp) t ht
      | cons a as =>
        simp only [tokensGo, hc, if_true, List.mem_cons] at ht
        rcases ht with h | h
        · subst h
          refine ⟨by simp, fun x hx => hacc x (List.mem_reverse.mp hx)⟩
        · exact ih [] (by simp) t h
    · simp only [tokensGo, hc, Bool.false_eq_true, if_false] at ht
      refine ih (c :: acc) ?_ t ht
      intro x hx
      rcases List.mem_cons.mp hx with h | h
      · subst h; simpa using hc
      · exact hacc x h

lemma tokens_wf (l : List Char) :
    ∀ t ∈ tokens l, t ≠ [] ∧ ∀ c ∈ t, isWsChar c = false :=
  tokensGo_wf l [] (by simp)

/-- A nonempty whitespace-free list is its own single token. -/
lemma tokens_of_token {t : List Char} (hne : t ≠ [])
    (hwf : ∀ c ∈ t, isWsChar c = false) : tokens t = [t] := by
  unfold tokens
  rw [← List.append_nil t, tokensGo_all_not_ws t hwf [] []]
  cases h : t.reverse with
  | nil => exact absurd (by simpa using h) hne
  | cons a as => simp [tokensGo, ← h]

/-- Tokenizing a space-join of well-formed tokens recovers them. -/
lemma tokens_joinSp {ts : List (List Char)}
    (h : ∀ t ∈ ts, t ≠ [] ∧ ∀ c ∈ t, isWsChar c = false) :
    tokens (joinSp ts) = ts := by
  induction ts with
  | nil => rfl
  | cons t ts ih =>
    cases ts with
    | nil =>
      obtain ⟨hne, hwf⟩ := h t (List.mem_singleton.mpr rfl)
      simpa [joinSp] using tokens_of_token hne hwf
    | cons t' ts' =>
      obtain ⟨hne, hwf⟩ := h t (List.mem_cons_self _ _)
      have hrest : ∀ x ∈ t' :: ts', x ≠ [] ∧ ∀ c ∈ x, isWsChar c = false :=
        fun x hx => h x (List.mem_cons_of_mem _ hx)
      show tokens (t ++ ' ' :: joinSp (t' :: ts')) = t :: t' :: ts'
      rw [tokens_append_ws (by rfl), tokens_of_token hne hwf, ih hrest]
      rfl

/-- Normalization is idempotent at the token level. -/
lemma tokens_normWs (l : List Char) : tokens (normWs l) = tokens l := by
  unfold normWs
  exact tokens_joinSp (tokens_wf l)

/-- Tokenizing a space-join splits into the chunks' tokens. -/
lemma tokens_joinSp_flatten :
    ∀ ls : List (List Char), tokens (joinSp ls) = (ls.map tokens).flatten := by
  intro ls
  induction ls with
  | nil => rfl
  | cons t ts ih =>
    cases ts with
    | nil => simp [joinSp]
    | cons t' ts' =>
      show tokens (t ++ ' ' :: joinSp (t' :: ts')) = _
      rw [tokens_append_ws (by rfl), ih]
      simp

/-- Chunking at whitespace boundary elements does not change the token
stream. -/
lemma tokens_chunkBy {p : Char → Bool} (hp : ∀ c, p c = true → isWsChar c = true) :
    ∀ (l acc : List Char),
      ((chunkBy p l acc).map tokens).flatten = tokens (acc.reverse ++ l) := by
  intro l
  induction l with
  | nil =>
    intro acc
    cases acc with
    | nil => rfl
    | cons a as => simp [chunkBy_nil_cons]
  | cons x xs ih =>
    intro acc
    by_cases h : p x
    · have hws : isWsChar x = true := hp x h
      rw [chunkBy_cons_pos h, List.map_cons, List.flatten_cons, ih [],
        List.reverse_nil, List.nil_append]
      have h3 : tokens ((x :: acc).reverse) = tokens acc.reverse := by
        rw [List.reverse_cons]
        unfold tokens
        exact tokensGo_trailing_ws hws _ _
      have h4 : acc.reverse ++ x :: xs = acc.reverse ++ x :: xs := rfl
      rw [h3, tokens_append_ws hws acc.reverse xs]
    · rw [chunkBy_cons_neg (by simpa using h), ih (x :: acc)]
      congr 1
      simp

/-- A sentence boundary: the token ends with a period. -/
def endsDot (t : List Char) : Bool := t.getLast? == some '.'

/-- A paragraph boundary character. -/
def isNl (c : Char) : Bool := c = '\n'

/-- Modelled from the spec: a paragraph Node's text — the
whitespace-normalized paragraph content. -/
def paragraphText (praw : List Char) : List Char := normWs praw

/-- Modelled from the spec: sentence segmentation of a paragraph — its
tokens grouped into sentences at sentence boundaries, each sentence Node's
text being the space-joined tokens of its group. -/
def sentenceTexts (praw : List Char) : List (List Char) :=
  (chunkBy endsDot (tokens praw) []).map joinSp

/-- Modelled from the spec: paragraph splitting of a section at line
boundaries (the boundary character staying with the preceding chunk), each
paragraph Node's text being its whitespace-normalized chunk. -/
def paragraphTexts (sraw : List Char) : List (List Char) :=
  (chunkBy isNl sraw []).map normWs

/-- Modelled from the spec: a section Node's text — the
whitespace-normalized section content. -/
def sectionText (sraw : List Char) : List Char := normWs sraw

/-- Modelled from the spec: the child Nodes built from a list of child
texts, each linked to its parent via `parent_id` and placed at successive
positions. -/
def childNodes (docId : String) (ty : NodeType) (page : Int) (parent : NodeId) :
    Nat → List (List Char) → List PipeNode
  | _, [] => []
  | j, t :: ts =>
    ⟨⟨docId, ty, page, j⟩, ty, t, page, j, some parent, none⟩ ::
      childNodes docId ty page parent (j + 1) ts

/-- Modelled from the spec: build one paragraph Node with its child sentence
Nodes. -/
def buildParagraph (docId : String) (page : Int) (ppos : Nat) (praw : List Char) :
    PipeNode × List PipeNode :=
  (⟨⟨docId, NodeType.paragraph, page, ppos⟩, NodeType.paragraph,
      paragraphText praw, page, ppos, none, none⟩,
    childNodes docId NodeType.sentence page ⟨docId, NodeType.paragraph, page, ppos⟩
      0 (sentenceTexts praw))

/-- Modelled from the spec: build one section Node with its child paragraph
Nodes. -/
def buildSection (docId : String) (page : Int) (spos : Nat) (sraw : List Char) :
    PipeNode × List PipeNode :=
  (⟨⟨docId, NodeType.section, page, spos⟩, NodeType.section,
      sectionText sraw, page, spos, none, none⟩,
    childNodes docId NodeType.paragraph page ⟨docId, NodeType.section, page, spos⟩
      0 (paragraphTexts sraw))

lemma childNodes_text (docId : String) (ty : NodeType) (page : Int)
    (parent : NodeId) :
    ∀ (ts : List (List Char)) (j : Nat),
      (childNodes docId ty page parent j ts).map PipeNode.text = ts := by
  intro ts
  induction ts with
  | nil => intro j; rfl
  | cons t ts ih => intro j; simp [childNodes, ih]

lemma childNodes_links (docId : String) (ty : NodeType) (page : Int)
    (parent : NodeId) :
    ∀ (ts : List (List Char)) (j : Nat) (n : PipeNode),
      n ∈ childNodes docId ty page parent j ts →
      n.parent_id = some parent ∧ n.node_type = ty := by
  intro ts
  induction ts with
  | nil => intro j n hn; cases hn
  | cons t ts ih =>
    intro j n hn
    rcases List.mem_cons.mp hn with h | h
    · subst h; exact ⟨rfl, rfl⟩
    · exact ih (j + 1) n h

lemma normWs_joinSp_sentenceTexts (praw : List Char) :
    normWs (joinSp (sentenceTexts praw)) = paragraphText praw := by
  unfold sentenceTexts paragraphText
  unfold normWs
  rw [tokens_joinSp_flatten, List.map_map]
  have hmap : (chunkBy endsDot (tokens praw) []).map (tokens ∘ joinSp) =
      (chunkBy endsDot (tokens praw) []).map id := by
    apply List.map_congr_left
    intro g hg
    have hwf : ∀ t ∈ g, t ≠ [] ∧ ∀ c ∈ t, isWsChar c = false := by
      intro t ht
      have hmem : t ∈ (chunkBy endsDot (tokens praw) []).flatten :=
        List.mem_flatten.mpr ⟨g, hg, ht⟩
      rw [flatten_chunkBy, List.reverse_nil, List.nil_append] at hmem
      exact tokens_wf praw t hmem
    show tokens (joinSp g) = id g
    rw [tokens_joinSp hwf]
    rfl
  rw [hmap, List.map_id, flatten_chunkBy, List.reverse_nil, List.nil_append]

lemma normWs_joinSp_paragraphTexts (sraw : List Char) :
    normWs (joinSp (paragraphTexts sraw)) = sectionText sraw := by
  unfold paragraphTexts sectionText
  show joinSp (tokens (joinSp ((chunkBy isNl sraw []).map normWs))) =
    joinSp (tokens sraw)
  rw [tokens_joinSp_flatten, List.map_map]
  have hmap : (chunkBy isNl sraw []).map (tokens ∘ normWs) =
      (chunkBy isNl sraw []).map tokens := by
    apply List.map_congr_left
    intro c _
    show tokens (normWs c) = tokens c
    exact tokens_normWs c
  rw [hmap]
  have hnl : ∀ c, isNl c = true → isWsChar c = true := by
    intro c hc
    unfold isNl at hc
    unfold isWsChar
    simp only [decide_eq_true_eq] at hc
    simp [hc]
  rw [tokens_chunkBy hnl sraw [], List.reverse_nil, List.nil_append]

/-- Claim C5: every child sentence Node built for a paragraph references the
paragraph via `parent_id`, and the whitespace-normalized concatenation of the
children's text equals the paragraph Node's own text; likewise for a section
Node and its child paragraph Nodes. -/
theorem c5_granularity_containment (docId : String) (page : Int)
    (ppos spos : Nat) (praw sraw : List Char) :
    (∀ n ∈ (buildParagraph docId page ppos praw).2,
      n.parent_id = some (buildParagraph docId page ppos praw).1.id ∧
      n.node_type = NodeType.sentence) ∧
    normWs (joinSp (((buildParagraph docId page ppos praw).2).map PipeNode.text)) =
      (buildParagraph docId page ppos praw).1.text ∧
    (∀ n ∈ (buildSection docId page spos sraw).2,
      n.parent_id = some (buildSection docId page spos sraw).1.id ∧
      n.node_type = NodeType.paragraph) ∧
    normWs (joinSp (((buildSection docId page spos sraw).2).map PipeNode.text)) =
      (buildSection docId page spos sraw).1.text := by
  refine ⟨?_, ?_, ?_, ?_⟩
  · intro n hn
    exact childNodes_links docId NodeType.sentence page _ (sentenceTexts praw) 0 n hn
  · show normWs (joinSp ((childNodes docId NodeType.sentence page _ 0
      (sentenceTexts praw)).map PipeNode.text)) = paragraphText praw
    rw [childNodes_text]
    exact normWs_joinSp_sentenceTexts praw
  · intro n hn
    exact childNodes_links docId NodeType.paragraph page _ (paragraphTexts sraw) 0 n hn
  · show normWs (joinSp ((childNodes docId NodeType.paragraph page _ 0
      (paragraphTexts sraw)).map PipeNode.text)) = sectionText sraw
    rw [childNodes_text]
    exact normWs_joinSp_paragraphTexts sraw

/-- Claim C5 witness: concrete paragraph and section containment checks. -/
theorem c5_granularity_containment_witness :
    normWs (joinSp
        (((buildParagraph "doc" 1 0 ("One two. Three four.".data)).2).map PipeNode.text)) =
      (buildParagraph "doc" 1 0 ("One two. Three four.".data)).1.text ∧
    normWs (joinSp
        (((buildSection "doc" 1 0 ("line one\nline  two".data)).2).map PipeNode.text)) =
      (buildSection "doc" 1 0 ("line one\nline  two".data)).1.text :=
  ⟨(c5_granularity_containment "doc" 1 0 0 ("One two. Three four.".data)
      ("line one\nline  two".data)).2.1,
    (c5_granularity_containment "doc" 1 0 0 ("One two. Three four.".data)
      ("line one\nline  two".data)).2.2.2⟩

end MediShield
